import Mathlib

/-!
# Lazy tensor core: backend registry and scalar constant node

A shallow embedding of

* `lazy_tensor_core/csrc/compiler/backend_impl_interface.h`
  (`backend_impl_registry`, `BackendRegistrar`, `getBackendRegistrar`), and
* `lazy_tensor_core/csrc/ops/scalar.cpp`
  (`Scalar::Scalar`, `Scalar::ToString`, `ScalarHash`),

followed by the properties proved about them.

Conventions.  A pointer is its address, `0` being the null pointer.  A C++
function that reads or writes the global registry takes the process state and
returns its result together with the state it leaves.  A failed `CHECK` or a
thrown conversion error is `Except.error`.  A `double` is its IEEE-754 binary64
bit pattern (a natural number below `2 ^ 64`); an `int64_t` is an integer in
`[-2 ^ 63, 2 ^ 63)`.
-/

deriving instance DecidableEq for Except

/-! ## The backend registry (`backend_impl_interface.h`) -/

namespace torch_lazy_tensors
namespace compiler

/-- A `const BackendImplInterface*`, as an address. -/
abbrev BackendImplPtr := Nat

/-- The null `const BackendImplInterface*`. -/
def nullBackend : BackendImplPtr := 0

/-- The part of the process state the registry functions touch: the value held
by the global `std::atomic<const BackendImplInterface*> backend_impl_registry`. -/
structure Process where
  backend_impl_registry : BackendImplPtr
deriving DecidableEq, Repr

/-- The state at process start: the global has static storage and no
initialiser, so it holds the null pointer. -/
def Process.start : Process := ⟨nullBackend⟩

/-- The text streamed into the failing `CHECK` of `getBackendRegistrar`. -/
def notRegisteredMessage : String := "Lazy tensor backend not registered."

/-- The function `getBackendRegistrar()`:
`auto p = backend_impl_registry.load(); CHECK(p) << "..."; return p;`.
The load leaves the registry as it is; a failed `CHECK` is an error carrying
the streamed message. -/
def getBackendRegistrar (σ : Process) : Except String BackendImplPtr × Process :=
  let p := σ.backend_impl_registry
  if p ≠ nullBackend then (Except.ok p, σ) else (Except.error notRegisteredMessage, σ)

/-- Runs `getBackendRegistrar()` `n` times in a row, with nothing in between,
collecting the results in call order. -/
def getBackendRegistrarTimes : Nat → Process → List (Except String BackendImplPtr) × Process
  | 0, σ => ([], σ)
  | n + 1, σ =>
    let r := getBackendRegistrar σ
    let rest := getBackendRegistrarTimes n r.2
    (r.1 :: rest.1, rest.2)

/-- What a backend does with a registration that arrives when the registry is
already set: the spec leaves the choice between rejecting and ignoring it to
the backend. -/
inductive LaterRegistration where
  | rejected
  | ignored
deriving DecidableEq, Repr

/-- Modelled from the spec: the body of the constructor
`BackendRegistrar::BackendRegistrar(const BackendImplInterface*)` is missing
from the sources at hand (the header only declares it).  The spec describes the
registry entry as "set at most once per process (first writer wins; later
attempts are rejected or ignored per backend policy)": a registration made
while the registry holds the null pointer installs its argument; one made while
the registry is set leaves it alone, and is either reported as an error or
dropped silently. -/
def BackendRegistrar (policy : LaterRegistration) (backend_impl_interface : BackendImplPtr)
    (σ : Process) : Except String Unit × Process :=
  if σ.backend_impl_registry = nullBackend then
    (Except.ok (), { σ with backend_impl_registry := backend_impl_interface })
  else
    match policy with
    | LaterRegistration.ignored => (Except.ok (), σ)
    | LaterRegistration.rejected => (Except.error "Lazy tensor backend already registered.", σ)

/-- The state after the registrations `BackendRegistrar(p)` for `p` in `ps`,
made in list order. -/
def registerAll (policy : LaterRegistration) (ps : List BackendImplPtr) (σ : Process) : Process :=
  ps.foldl (fun s p => (BackendRegistrar policy p s).2) σ

end compiler
end torch_lazy_tensors

/-! ## Scalar values (`at::Scalar`, an alias of `c10::Scalar`) -/

namespace c10

/-- The element types of `c10::ScalarType` (declared outside the sources at
hand); the node code only passes such a value on to `MakeShape`. -/
inductive ScalarType where
  | Byte | Char | Short | Int | Long | Half | Float | Double
  | ComplexHalf | ComplexFloat | ComplexDouble | Bool | BFloat16 | Undefined
deriving DecidableEq, Repr

/-- The range-checked conversions `checked_convert<To, From>` that change the
representation of a scalar payload (declared outside the sources at hand).
They round or range-check floating-point values and may throw, so each is
taken as given: a `double` goes in and out as its bit pattern. -/
structure TypeCast where
  /-- Conversion `checked_convert<int64_t, double>`. -/
  long_of_double : Nat → Except String Int
  /-- Conversion `checked_convert<int64_t, c10::complex<double>>`. -/
  long_of_complex : Nat → Nat → Except String Int
  /-- Conversion `checked_convert<double, int64_t>`. -/
  double_of_long : Int → Except String Nat
  /-- Conversion `checked_convert<double, c10::complex<double>>`. -/
  double_of_complex : Nat → Nat → Except String Nat

/-- Modelled from the spec: the class `at::Scalar` is declared outside the
sources at hand.  The spec's numeric constant values come in two representation
categories, floating (held as a float64) and integral (held as a native 64-bit
integer); the scalar class holds one payload under a tag, which besides these
two can be a boolean or a complex value (a pair of float64). -/
inductive Scalar where
  | HAS_d (d : Nat)
  | HAS_i (i : Int)
  | HAS_z (re im : Nat)
  | HAS_b (b : Bool)
deriving DecidableEq, Repr

namespace Scalar

/-- Accessor `isFloatingPoint()`: the payload is a float64. -/
def isFloatingPoint : Scalar → Bool
  | HAS_d _ => true
  | _ => false

/-- Accessor `isBoolean()`. -/
def isBoolean : Scalar → Bool
  | HAS_b _ => true
  | _ => false

/-- Accessor `isIntegral(includeBool)`. -/
def isIntegral (includeBool : Bool) : Scalar → Bool
  | HAS_i _ => true
  | HAS_b _ => includeBool
  | _ => false

/-- Accessor `isComplex()`. -/
def isComplex : Scalar → Bool
  | HAS_z _ _ => true
  | _ => false

/-- The bit pattern of the `double` a `bool` converts to: `1.0` or `0.0`. -/
def double_of_bool (b : Bool) : Nat := if b then 0x3FF0000000000000 else 0

/-- The `int64_t` a `bool` converts to. -/
def long_of_bool (b : Bool) : Int := if b then 1 else 0

/-- Accessor `toDouble()`: the payload as a `double`.  A float64 payload is
returned as it is. -/
def toDouble (cast : TypeCast) : Scalar → Except String Nat
  | HAS_d d => Except.ok d
  | HAS_z re im => cast.double_of_complex re im
  | HAS_b b => Except.ok (double_of_bool b)
  | HAS_i i => cast.double_of_long i

/-- Accessor `toLong()`: the payload as an `int64_t`.  An integer payload is
returned as it is. -/
def toLong (cast : TypeCast) : Scalar → Except String Int
  | HAS_d d => cast.long_of_double d
  | HAS_z re im => cast.long_of_complex re im
  | HAS_b b => Except.ok (long_of_bool b)
  | HAS_i i => Except.ok i

/-- The payload is within the range of its C++ type: a float64 bit pattern is
below `2 ^ 64`, an `int64_t` lies in `[-2 ^ 63, 2 ^ 63)`. -/
def inRange : Scalar → Bool
  | HAS_d d => decide (d < 2 ^ 64)
  | HAS_i i => decide (-2 ^ 63 ≤ i ∧ i < 2 ^ 63)
  | HAS_z re im => decide (re < 2 ^ 64 ∧ im < 2 ^ 64)
  | HAS_b _ => true

/-- The supported numeric scalars of the spec: floating or integral, with the
payload in range. -/
def isNumeric (s : Scalar) : Bool :=
  (s.isFloatingPoint || s.isIntegral false) && s.inRange

/-- The native value of a scalar: its payload words (float64 bit patterns,
integers, or `0`/`1` for a boolean). -/
def payload : Scalar → List Int
  | HAS_d d => [(d : Int)]
  | HAS_i i => [i]
  | HAS_z re im => [(re : Int), (im : Int)]
  | HAS_b b => [long_of_bool b]

end Scalar
end c10

/-! ## Hashing (`torch::lazy`) -/

namespace torch
namespace lazy

/-- The type `torch::lazy::hash_t` of hash values. -/
abbrev hash_t := Nat

/-- The eight bytes of the object representation of a 64-bit word, lowest
byte first. -/
def bytes64 (w : Nat) : List Nat :=
  (List.range 8).map fun k => w / 256 ^ k % 256

/-- The 64-bit pattern of an `int64_t` (two's complement). -/
def bits_of_long (value : Int) : Nat := (value % 2 ^ 64).toNat

/-- Modelled from the spec: `torch::lazy::Hash` is declared outside the sources
at hand.  Content hashing is to "hash the value's native representation
(float64 bits for floating values, native integer for integral values)": the
hash of a `double` is the data hash of the eight bytes that hold it; the
function hashing a byte string is a parameter. -/
def Hash_double (DataHash : List Nat → hash_t) (value : Nat) : hash_t :=
  DataHash (bytes64 value)

/-- Modelled from the spec: as `Hash_double`, for an `int64_t`: the data hash
of the eight bytes that hold the integer. -/
def Hash_long (DataHash : List Nat → hash_t) (value : Int) : hash_t :=
  DataHash (bytes64 (bits_of_long value))

/-- A byte string of length eight. -/
def IsBytes8 (bs : List Nat) : Prop := bs.length = 8 ∧ ∀ b ∈ bs, b < 256

/-- The byte-hashing function is collision-free on the bytes of a 64-bit
value: two eight-byte strings with the same hash are the same string. -/
def CollisionFree (DataHash : List Nat → hash_t) : Prop :=
  ∀ x y, IsBytes8 x → IsBytes8 y → DataHash x = DataHash y → x = y

end lazy
end torch

/-! ## Shapes (`lazy_tensors`) -/

namespace lazy_tensors

/-- Modelled from the spec: `lazy_tensors::Shape` is declared outside the
sources at hand; a ShapeSpec is "an immutable description of rank, dimension
sizes, and element type". -/
structure Shape where
  element_type : c10.ScalarType
  dimensions : List Int
deriving DecidableEq, Repr

/-- The rank of a shape: its number of dimensions. -/
def Shape.rank (s : Shape) : Nat := s.dimensions.length

namespace ShapeUtil

/-- Modelled from the spec: `ShapeUtil::MakeShape(type, dimensions)` is declared
outside the sources at hand; it makes the shape with the given element type and
dimension sizes. -/
def MakeShape (type : c10.ScalarType) (dimensions : List Int) : Shape :=
  { element_type := type, dimensions := dimensions }

end ShapeUtil
end lazy_tensors

/-! ## The scalar constant node (`scalar.cpp`) -/

namespace torch_lazy_tensors
namespace ir

open torch.lazy

/-- The kind tag of a node: an interned operator symbol, by qualified name. -/
structure OpKind where
  op : String
deriving DecidableEq, Repr

/-- The symbol `at::prim::Constant`. -/
def prim_Constant : String := "prim::Constant"

/-- Modelled from the spec: the base class `TsNode` is declared outside the
sources at hand.  A graph node is "an immutable IR value with a kind tag, a
ShapeSpec, a fixed output count, and a content hash": the record keeps what the
base-class constructor `TsNode(op, shape, num_outputs, hash_seed)` receives;
the content hash of the node is a function of these (`Externals.nodeHash`). -/
structure TsNode where
  op : OpKind
  shape : lazy_tensors.Shape
  num_outputs : Nat
  hash_seed : hash_t
deriving DecidableEq, Repr

/-- The library functions the scalar node calls that lie outside the sources
at hand, taken as given. -/
structure Externals where
  /-- The function `torch::lazy::DataHash` on a byte string. -/
  DataHash : List Nat → hash_t
  /-- The representation-changing scalar conversions. -/
  cast : c10.TypeCast
  /-- The content hash the node base class derives from its constructor arguments. -/
  nodeHash : TsNode → hash_t
  /-- The method `TsNode::ToString()`. -/
  TsNode_ToString : TsNode → String
  /-- The text `operator<<` prints for an `at::Scalar`. -/
  printScalar : c10.Scalar → String

namespace ops

/-- The function `ScalarHash(s)`:
`s.isFloatingPoint() ? Hash(s.toDouble()) : Hash(s.toLong())`.
A conversion that throws makes the call throw. -/
def ScalarHash (E : Externals) (s : c10.Scalar) : Except String hash_t :=
  if s.isFloatingPoint then (s.toDouble E.cast).map (Hash_double E.DataHash)
  else (s.toLong E.cast).map (Hash_long E.DataHash)

/-- The node class `Scalar`: a `TsNode` together with the member `value_`. -/
structure Scalar extends TsNode where
  value_ : c10.Scalar
deriving DecidableEq, Repr

/-- The constructor `Scalar::Scalar(const at::Scalar& value, lazy_tensors::Shape shape)`:
base `TsNode(OpKind(at::prim::Constant), shape, 1, ScalarHash(value))`, then
`value_(value)`. -/
def Scalar.Scalar_shape (E : Externals) (value : c10.Scalar) (shape : lazy_tensors.Shape) :
    Except String Scalar :=
  (ScalarHash E value).map fun seed =>
    { op := OpKind.mk prim_Constant, shape := shape, num_outputs := 1, hash_seed := seed,
      value_ := value }

/-- The constructor `Scalar::Scalar(const at::Scalar& value, c10::ScalarType type)`:
base `TsNode(OpKind(at::prim::Constant), {ShapeUtil::MakeShape(type, {})}, 1,
ScalarHash(value))`, then `value_(value)`. -/
def Scalar.Scalar_type (E : Externals) (value : c10.Scalar) (type : c10.ScalarType) :
    Except String Scalar :=
  (ScalarHash E value).map fun seed =>
    { op := OpKind.mk prim_Constant, shape := lazy_tensors.ShapeUtil.MakeShape type [],
      num_outputs := 1, hash_seed := seed, value_ := value }

/-- The method `Scalar::ToString()`:
`ss << TsNode::ToString() << ", value=" << value_; return ss.str();`. -/
def Scalar.ToString (E : Externals) (n : Scalar) : String :=
  E.TsNode_ToString n.toTsNode ++ ", value=" ++ E.printScalar n.value_

/-- An instance of the external functions on which the definitions can be
evaluated: a byte string is hashed by reading it as a base-256 numeral (which
is collision-free), a node by the sum of its seed, output count and the
lengths of its kind and dimension list, and the conversions that change a
floating or complex representation are rejected. -/
def sampleExternals : Externals where
  DataHash := Nat.ofDigits 256
  cast :=
    { long_of_double := fun _ => Except.error "conversion not available"
      long_of_complex := fun _ _ => Except.error "conversion not available"
      double_of_long := fun _ => Except.error "conversion not available"
      double_of_complex := fun _ _ => Except.error "conversion not available" }
  nodeHash := fun n => n.hash_seed + n.num_outputs + n.op.op.length + n.shape.dimensions.length
  TsNode_ToString := fun n => n.op.op
  printScalar := fun s =>
    match s with
    | c10.Scalar.HAS_d d => "double:" ++ toString d
    | c10.Scalar.HAS_i i => toString i
    | c10.Scalar.HAS_z re im => "complex:" ++ toString re ++ "," ++ toString im
    | c10.Scalar.HAS_b b => toString b

end ops
end ir
end torch_lazy_tensors

/-! ## Properties of the backend registry -/

namespace torch_lazy_tensors
namespace compiler

theorem getBackendRegistrar_state (σ : Process) : (getBackendRegistrar σ).2 = σ := by
  simp only [getBackendRegistrar]
  split <;> rfl

theorem getBackendRegistrar_of_ne {σ : Process} (h : σ.backend_impl_registry ≠ nullBackend) :
    getBackendRegistrar σ = (Except.ok σ.backend_impl_registry, σ) := by
  simp [getBackendRegistrar, h]

theorem getBackendRegistrar_of_eq {σ : Process} (h : σ.backend_impl_registry = nullBackend) :
    getBackendRegistrar σ = (Except.error notRegisteredMessage, σ) := by
  simp [getBackendRegistrar, h]

theorem BackendRegistrar_of_set (policy : LaterRegistration) (p : BackendImplPtr) {σ : Process}
    (h : σ.backend_impl_registry ≠ nullBackend) : (BackendRegistrar policy p σ).2 = σ := by
  unfold BackendRegistrar
  rw [if_neg h]
  cases policy <;> rfl

theorem registerAll_of_set (policy : LaterRegistration) (ps : List BackendImplPtr) {σ : Process}
    (h : σ.backend_impl_registry ≠ nullBackend) : registerAll policy ps σ = σ := by
  induction ps with
  | nil => rfl
  | cons p ps ih =>
    show registerAll policy ps (BackendRegistrar policy p σ).2 = σ
    rw [BackendRegistrar_of_set policy p h]
    exact ih

theorem registerAll_cons_start (policy : LaterRegistration) (p : BackendImplPtr)
    (ps : List BackendImplPtr) (h : p ≠ nullBackend) :
    registerAll policy (p :: ps) Process.start = ⟨p⟩ := by
  show registerAll policy ps (BackendRegistrar policy p Process.start).2 = ⟨p⟩
  have h1 : (BackendRegistrar policy p Process.start).2 = ⟨p⟩ := by
    simp [BackendRegistrar, Process.start]
  rw [h1]
  exact registerAll_of_set policy ps h

/-- C1: in every state of the registry, `getBackendRegistrar()` fails exactly
when the registry holds the null pointer, the failure carries the message
"Lazy tensor backend not registered.", and in every other state the call
succeeds (returning the pointer held). -/
theorem getBackendRegistrar_fails_iff_null (σ : Process) :
    ((∃ msg, (getBackendRegistrar σ).1 = Except.error msg) ↔
        σ.backend_impl_registry = nullBackend) ∧
    ((getBackendRegistrar σ).1 = Except.error "Lazy tensor backend not registered." ↔
        σ.backend_impl_registry = nullBackend) ∧
    ((∃ p, (getBackendRegistrar σ).1 = Except.ok p) ↔
        σ.backend_impl_registry ≠ nullBackend) := by
  by_cases h : σ.backend_impl_registry = nullBackend
  · simp [getBackendRegistrar_of_eq h, h, notRegisteredMessage]
  · simp [getBackendRegistrar_of_ne h, h]

/-- C2: when the registry holds a non-null pointer `p`, `getBackendRegistrar()`
returns exactly `p` and leaves the registry unchanged; hence `n` consecutive
calls all return `p` and the registry still holds `p` afterwards. -/
theorem getBackendRegistrar_returns_held (σ : Process) (p : BackendImplPtr)
    (hp : p ≠ nullBackend) (hσ : σ.backend_impl_registry = p) :
    getBackendRegistrar σ = (Except.ok p, σ) ∧
    ∀ n, getBackendRegistrarTimes n σ = (List.replicate n (Except.ok p), σ) := by
  have hne : σ.backend_impl_registry ≠ nullBackend := hσ ▸ hp
  have h1 : getBackendRegistrar σ = (Except.ok p, σ) := by
    rw [getBackendRegistrar_of_ne hne, hσ]
  refine ⟨h1, ?_⟩
  intro n
  induction n with
  | zero => rfl
  | succ n ih => simp [getBackendRegistrarTimes, h1, ih, List.replicate_succ]

theorem getBackendRegistrar_returns_held_witness :
    getBackendRegistrar ⟨7⟩ = (Except.ok 7, ⟨7⟩) ∧
    ∀ n, getBackendRegistrarTimes n ⟨7⟩ = (List.replicate n (Except.ok 7), ⟨7⟩) :=
  getBackendRegistrar_returns_held ⟨7⟩ 7 (by decide) rfl

/-- C7: starting from the unset registry, after the registrations
`BackendRegistrar(p1), BackendRegistrar(p2), ...` with `p1` non-null, the
registry holds `p1` after the first registration and after every later one
(however many of them have been made, under either policy for later
attempts), so `getBackendRegistrar()` returns `p1` at each of these points. -/
theorem BackendRegistrar_first_writer_wins (policy : LaterRegistration) (p1 : BackendImplPtr)
    (later : List BackendImplPtr) (k : Nat) (h1 : p1 ≠ nullBackend) :
    (registerAll policy (p1 :: later.take k) Process.start).backend_impl_registry = p1 ∧
    getBackendRegistrar (registerAll policy (p1 :: later.take k) Process.start) =
      (Except.ok p1, ⟨p1⟩) := by
  rw [registerAll_cons_start policy p1 _ h1]
  exact ⟨rfl, by simp [getBackendRegistrar, h1]⟩

theorem BackendRegistrar_first_writer_wins_witness :
    (7 : BackendImplPtr) ≠ nullBackend ∧
    (registerAll LaterRegistration.rejected (7 :: [8, 0, 9].take 2)
      Process.start).backend_impl_registry = 7 ∧
    getBackendRegistrar (registerAll LaterRegistration.rejected (7 :: [8, 0, 9].take 2)
      Process.start) = (Except.ok 7, ⟨7⟩) :=
  ⟨by decide, BackendRegistrar_first_writer_wins LaterRegistration.rejected 7 [8, 0, 9] 2
    (by decide)⟩

end compiler
end torch_lazy_tensors

/-! ## Properties of scalar hashing and of the scalar constant node -/

namespace torch
namespace lazy

theorem ofDigits_bytes64 (w : Nat) : Nat.ofDigits 256 (bytes64 w) = w % 2 ^ 64 := by
  simp [bytes64, List.range, List.range.loop, Nat.ofDigits_cons]
  omega

theorem bytes64_isBytes8 (w : Nat) : IsBytes8 (bytes64 w) := by
  refine ⟨by simp [bytes64], ?_⟩
  intro b hb
  simp only [bytes64, List.mem_map] at hb
  obtain ⟨k, _, rfl⟩ := hb
  exact Nat.mod_lt _ (by norm_num)

theorem bytes64_inj {v w : Nat} (hv : v < 2 ^ 64) (hw : w < 2 ^ 64)
    (h : bytes64 v = bytes64 w) : v = w := by
  have h1 := congrArg (Nat.ofDigits 256) h
  rw [ofDigits_bytes64, ofDigits_bytes64, Nat.mod_eq_of_lt hv, Nat.mod_eq_of_lt hw] at h1
  exact h1

theorem bits_of_long_lt (i : Int) : bits_of_long i < 2 ^ 64 := by
  unfold bits_of_long
  omega

theorem bits_of_long_inj {i j : Int} (hi : -2 ^ 63 ≤ i ∧ i < 2 ^ 63)
    (hj : -2 ^ 63 ≤ j ∧ j < 2 ^ 63) (h : bits_of_long i = bits_of_long j) : i = j := by
  unfold bits_of_long at h
  omega

theorem CollisionFree.bits {DataHash : List Nat → hash_t} (hD : CollisionFree DataHash)
    {v w : Nat} (hv : v < 2 ^ 64) (hw : w < 2 ^ 64) :
    DataHash (bytes64 v) = DataHash (bytes64 w) ↔ v = w := by
  constructor
  · intro h
    exact bytes64_inj hv hw (hD _ _ (bytes64_isBytes8 v) (bytes64_isBytes8 w) h)
  · intro h
    rw [h]

theorem ofDigits_bytes_inj : ∀ x y : List Nat, x.length = y.length →
    (∀ b ∈ x, b < 256) → (∀ b ∈ y, b < 256) →
    Nat.ofDigits 256 x = Nat.ofDigits 256 y → x = y
  | [], [], _, _, _, _ => rfl
  | [], _ :: _, hl, _, _, _ => by simp at hl
  | _ :: _, [], hl, _, _, _ => by simp at hl
  | a :: x, b :: y, hl, hx, hy, h => by
    have ha : a < 256 := hx a (List.mem_cons_self a x)
    have hb : b < 256 := hy b (List.mem_cons_self b y)
    simp only [Nat.ofDigits_cons, Nat.cast_id] at h
    have hab : a = b := by omega
    have hxy : Nat.ofDigits 256 x = Nat.ofDigits 256 y := by omega
    have ih := ofDigits_bytes_inj x y (by simpa using hl)
      (fun c hc => hx c (List.mem_cons_of_mem a hc))
      (fun c hc => hy c (List.mem_cons_of_mem b hc)) hxy
    rw [hab, ih]

theorem ofDigits_collisionFree : CollisionFree (Nat.ofDigits 256) := by
  intro x y hx hy h
  exact ofDigits_bytes_inj x y (hx.1.trans hy.1.symm) hx.2 hy.2 h

end lazy
end torch

namespace torch_lazy_tensors
namespace ir
namespace ops

open torch.lazy

theorem ScalarHash_HAS_d (E : Externals) (d : Nat) :
    ScalarHash E (c10.Scalar.HAS_d d) = Except.ok (E.DataHash (bytes64 d)) := rfl

theorem ScalarHash_HAS_i (E : Externals) (i : Int) :
    ScalarHash E (c10.Scalar.HAS_i i) = Except.ok (E.DataHash (bytes64 (bits_of_long i))) := rfl

theorem ScalarHash_HAS_b (E : Externals) (b : Bool) :
    ScalarHash E (c10.Scalar.HAS_b b) =
      Except.ok (E.DataHash (bytes64 (bits_of_long (c10.Scalar.long_of_bool b)))) := rfl

theorem sample_collisionFree : CollisionFree sampleExternals.DataHash :=
  ofDigits_collisionFree

/-- C3: `ScalarHash(s)` hashes the native representation selected by the
category of `s`: for a floating-point scalar it is `Hash` of `s.toDouble()`,
that is, of the eight bytes of the float64 payload; otherwise it is `Hash` of
`s.toLong()`, for an integral scalar the eight bytes of the integer payload.
No common normalised form is hashed: with a collision-free byte hash, the
floating scalar `1.0` and the integral scalar `1` get different hashes. -/
theorem ScalarHash_hashes_native_representation (E : Externals) (s : c10.Scalar) :
    (s.isFloatingPoint = true →
      ScalarHash E s = (s.toDouble E.cast).map (Hash_double E.DataHash)) ∧
    (s.isFloatingPoint = false →
      ScalarHash E s = (s.toLong E.cast).map (Hash_long E.DataHash)) ∧
    (∀ d, s = c10.Scalar.HAS_d d → ScalarHash E s = Except.ok (E.DataHash (bytes64 d))) ∧
    (∀ i, s = c10.Scalar.HAS_i i →
      ScalarHash E s = Except.ok (E.DataHash (bytes64 (bits_of_long i)))) ∧
    (CollisionFree E.DataHash →
      ScalarHash E (c10.Scalar.HAS_d 0x3FF0000000000000) ≠ ScalarHash E (c10.Scalar.HAS_i 1)) := by
  refine ⟨?_, ?_, ?_, ?_, ?_⟩
  · intro h
    simp [ScalarHash, h]
  · intro h
    simp [ScalarHash, h]
  · rintro d rfl
    rfl
  · rintro i rfl
    rfl
  · intro hD h
    rw [ScalarHash_HAS_d, ScalarHash_HAS_i] at h
    have h1 := (hD.bits (by norm_num) (bits_of_long_lt 1)).1 (Except.ok.inj h)
    revert h1
    decide

/-- C4 (as stated, refuted): the floating scalar with bit pattern `0` (the
double `0.0`) and the integral scalar `0` differ in category, yet `ScalarHash`
hands the same eight zero bytes to the hash for both, so they collide even
under a collision-free byte hash. -/
theorem ScalarHash_collides_across_categories :
    (¬ ∀ (E : Externals) (a b : c10.Scalar), CollisionFree E.DataHash →
        a.isNumeric = true → b.isNumeric = true →
        (a.isFloatingPoint, a.payload) ≠ (b.isFloatingPoint, b.payload) →
        ScalarHash E a ≠ ScalarHash E b) ∧
    ScalarHash sampleExternals (c10.Scalar.HAS_d 0) =
      ScalarHash sampleExternals (c10.Scalar.HAS_i 0) := by
  refine ⟨?_, rfl⟩
  intro h
  exact h sampleExternals (c10.Scalar.HAS_d 0) (c10.Scalar.HAS_i 0) sample_collisionFree
    (by decide) (by decide) (by decide) rfl

/-- C4 (amended): with a byte hash that is collision-free on the bytes it is
given, two supported numeric scalars of the same category (both floating or
both integral) whose native values are distinct get different hashes; a
floating and an integral scalar get the same hash exactly when the float64 bit
pattern equals the two's-complement pattern of the integer. -/
theorem ScalarHash_differs_within_category (E : Externals) (a b : c10.Scalar)
    (hD : CollisionFree E.DataHash) (ha : a.isNumeric = true) (hb : b.isNumeric = true) :
    (a.isFloatingPoint = b.isFloatingPoint → a.payload ≠ b.payload →
      ScalarHash E a ≠ ScalarHash E b) ∧
    (∀ d i, a = c10.Scalar.HAS_d d → b = c10.Scalar.HAS_i i →
      (ScalarHash E a = ScalarHash E b ↔ d = bits_of_long i)) := by
  cases a with
  | HAS_d d =>
    have hd : d < 2 ^ 64 := by simpa [c10.Scalar.isNumeric, c10.Scalar.inRange,
      c10.Scalar.isFloatingPoint] using ha
    cases b with
    | HAS_d e =>
      have he : e < 2 ^ 64 := by simpa [c10.Scalar.isNumeric, c10.Scalar.inRange,
        c10.Scalar.isFloatingPoint] using hb
      refine ⟨?_, ?_⟩
      · intro _ hne h
        rw [ScalarHash_HAS_d, ScalarHash_HAS_d] at h
        have := (hD.bits hd he).1 (Except.ok.inj h)
        exact hne (by rw [this])
      · intro _ _ _ h
        cases h
    | HAS_i i =>
      refine ⟨?_, ?_⟩
      · intro h
        simp [c10.Scalar.isFloatingPoint] at h
      · intro d1 i1 h1 h2
        cases h1
        cases h2
        rw [ScalarHash_HAS_d, ScalarHash_HAS_i]
        constructor
        · intro h
          exact (hD.bits hd (bits_of_long_lt i)).1 (Except.ok.inj h)
        · intro h
          rw [h]
    | HAS_z _ _ => simp [c10.Scalar.isNumeric, c10.Scalar.isFloatingPoint,
        c10.Scalar.isIntegral] at hb
    | HAS_b _ => simp [c10.Scalar.isNumeric, c10.Scalar.isFloatingPoint,
        c10.Scalar.isIntegral] at hb
  | HAS_i i =>
    have hi : -2 ^ 63 ≤ i ∧ i < 2 ^ 63 := by simpa [c10.Scalar.isNumeric, c10.Scalar.inRange,
      c10.Scalar.isFloatingPoint, c10.Scalar.isIntegral] using ha
    cases b with
    | HAS_d e =>
      refine ⟨?_, ?_⟩
      · intro h
        simp [c10.Scalar.isFloatingPoint] at h
      · intro _ _ h _
        cases h
    | HAS_i j =>
      have hj : -2 ^ 63 ≤ j ∧ j < 2 ^ 63 := by simpa [c10.Scalar.isNumeric,
        c10.Scalar.inRange, c10.Scalar.isFloatingPoint, c10.Scalar.isIntegral] using hb
      refine ⟨?_, ?_⟩
      · intro _ hne h
        rw [ScalarHash_HAS_i, ScalarHash_HAS_i] at h
        have h1 := (hD.bits (bits_of_long_lt i) (bits_of_long_lt j)).1 (Except.ok.inj h)
        have := bits_of_long_inj hi hj h1
        exact hne (by rw [this])
      · intro _ _ h _
        cases h
    | HAS_z _ _ => simp [c10.Scalar.isNumeric, c10.Scalar.isFloatingPoint,
        c10.Scalar.isIntegral] at hb
    | HAS_b _ => simp [c10.Scalar.isNumeric, c10.Scalar.isFloatingPoint,
        c10.Scalar.isIntegral] at hb
  | HAS_z _ _ => simp [c10.Scalar.isNumeric, c10.Scalar.isFloatingPoint,
      c10.Scalar.isIntegral] at ha
  | HAS_b _ => simp [c10.Scalar.isNumeric, c10.Scalar.isFloatingPoint,
      c10.Scalar.isIntegral] at ha

theorem ScalarHash_differs_within_category_witness :
    CollisionFree sampleExternals.DataHash ∧
    (c10.Scalar.HAS_i 5).isNumeric = true ∧ (c10.Scalar.HAS_i (-5)).isNumeric = true ∧
    ((c10.Scalar.HAS_i 5).isFloatingPoint = (c10.Scalar.HAS_i (-5)).isFloatingPoint →
      (c10.Scalar.HAS_i 5).payload ≠ (c10.Scalar.HAS_i (-5)).payload →
      ScalarHash sampleExternals (c10.Scalar.HAS_i 5) ≠
        ScalarHash sampleExternals (c10.Scalar.HAS_i (-5))) ∧
    (∀ d i, c10.Scalar.HAS_i 5 = c10.Scalar.HAS_d d → c10.Scalar.HAS_i (-5) = c10.Scalar.HAS_i i →
      (ScalarHash sampleExternals (c10.Scalar.HAS_i 5) =
        ScalarHash sampleExternals (c10.Scalar.HAS_i (-5)) ↔ d = bits_of_long i)) :=
  ⟨sample_collisionFree, by decide, by decide,
    ScalarHash_differs_within_category sampleExternals (c10.Scalar.HAS_i 5)
      (c10.Scalar.HAS_i (-5)) sample_collisionFree (by decide) (by decide)⟩

/-- C5: `ScalarHash` is a function of the representation category and the
native value of its argument: two scalars of the same category (floating or
not) with the same native value (same float64 bits, or same 64-bit integer)
get equal hashes, and for a supported numeric scalar the hash is computed (no
conversion can throw).  Two evaluations on the same scalar are the case
`a = b`. -/
theorem ScalarHash_deterministic (E : Externals) (a b : c10.Scalar)
    (hc : a.isFloatingPoint = b.isFloatingPoint) (hv : a.payload = b.payload) :
    ScalarHash E a = ScalarHash E b ∧
    (a.isNumeric = true → ∃ h, ScalarHash E a = Except.ok h ∧ ScalarHash E b = Except.ok h) := by
  have key : ScalarHash E a = ScalarHash E b := by
    cases a <;> cases b <;>
      simp_all [c10.Scalar.isFloatingPoint, c10.Scalar.payload, ScalarHash, c10.Scalar.toLong,
        c10.Scalar.toDouble]
  refine ⟨key, ?_⟩
  intro ha
  rw [← key]
  cases a with
  | HAS_d d => exact ⟨_, ScalarHash_HAS_d E d, ScalarHash_HAS_d E d⟩
  | HAS_i i => exact ⟨_, ScalarHash_HAS_i E i, ScalarHash_HAS_i E i⟩
  | HAS_z _ _ => simp [c10.Scalar.isNumeric, c10.Scalar.isFloatingPoint,
      c10.Scalar.isIntegral] at ha
  | HAS_b _ => simp [c10.Scalar.isNumeric, c10.Scalar.isFloatingPoint,
      c10.Scalar.isIntegral] at ha

theorem ScalarHash_deterministic_witness :
    ScalarHash sampleExternals (c10.Scalar.HAS_d 0x400C000000000000) =
      ScalarHash sampleExternals (c10.Scalar.HAS_d 0x400C000000000000) ∧
    ((c10.Scalar.HAS_d 0x400C000000000000).isNumeric = true →
      ∃ h, ScalarHash sampleExternals (c10.Scalar.HAS_d 0x400C000000000000) = Except.ok h ∧
        ScalarHash sampleExternals (c10.Scalar.HAS_d 0x400C000000000000) = Except.ok h) :=
  ScalarHash_deterministic sampleExternals (c10.Scalar.HAS_d 0x400C000000000000)
    (c10.Scalar.HAS_d 0x400C000000000000) rfl rfl

theorem ScalarHash_ok_of_not_complex (E : Externals) (v : c10.Scalar)
    (hv : v.isComplex = false) : ∃ seed, ScalarHash E v = Except.ok seed := by
  cases v with
  | HAS_d d => exact ⟨_, ScalarHash_HAS_d E d⟩
  | HAS_i i => exact ⟨_, ScalarHash_HAS_i E i⟩
  | HAS_z _ _ => simp [c10.Scalar.isComplex] at hv
  | HAS_b b => exact ⟨_, ScalarHash_HAS_b E b⟩

theorem Scalar_shape_eq_ok {E : Externals} {v : c10.Scalar} {shape : lazy_tensors.Shape}
    {n : Scalar} (h : Scalar.Scalar_shape E v shape = Except.ok n) :
    ∃ seed, ScalarHash E v = Except.ok seed ∧
      n = { op := OpKind.mk prim_Constant, shape := shape, num_outputs := 1, hash_seed := seed,
            value_ := v } := by
  unfold Scalar.Scalar_shape at h
  cases hs : ScalarHash E v with
  | error e => rw [hs] at h; cases h
  | ok seed =>
    rw [hs] at h
    exact ⟨seed, rfl, (Except.ok.inj h).symm⟩

theorem Scalar_type_eq_shape (E : Externals) (v : c10.Scalar) (type : c10.ScalarType) :
    Scalar.Scalar_type E v type =
      Scalar.Scalar_shape E v (lazy_tensors.ShapeUtil.MakeShape type []) := rfl

/-- C6: a `Scalar` node built by either constructor from the value `v` has
kind `prim::Constant`, exactly one output, the given shape (for the
scalar-type constructor the shape `MakeShape(type, {})`), stored value `v` and
hash seed `ScalarHash(v)`; a node is built for every value that is not complex
(for a complex one, exactly when its integer conversion does not throw).
Hence two nodes built with the same shape and the same value agree in kind,
shape, output count and content hash.  The float32 constant `3.5` has exactly
one output and its seed is the hash of the bytes of the double `3.5`. -/
theorem Scalar_node_fields (E : Externals) (v : c10.Scalar) (shape : lazy_tensors.Shape)
    (type : c10.ScalarType) :
    (∀ n, Scalar.Scalar_shape E v shape = Except.ok n →
      n.op = OpKind.mk "prim::Constant" ∧ n.num_outputs = 1 ∧ n.shape = shape ∧
      n.value_ = v ∧ ScalarHash E v = Except.ok n.hash_seed) ∧
    (∀ n, Scalar.Scalar_type E v type = Except.ok n →
      n.op = OpKind.mk "prim::Constant" ∧ n.num_outputs = 1 ∧
      n.shape = lazy_tensors.ShapeUtil.MakeShape type [] ∧
      n.value_ = v ∧ ScalarHash E v = Except.ok n.hash_seed) ∧
    ((∃ n, Scalar.Scalar_shape E v shape = Except.ok n) ↔ ∃ seed, ScalarHash E v = Except.ok seed) ∧
    ((∃ n, Scalar.Scalar_type E v type = Except.ok n) ↔ ∃ seed, ScalarHash E v = Except.ok seed) ∧
    (v.isComplex = false →
      (∃ n, Scalar.Scalar_shape E v shape = Except.ok n) ∧
      (∃ n, Scalar.Scalar_type E v type = Except.ok n)) ∧
    (∀ n1 n2, Scalar.Scalar_shape E v shape = Except.ok n1 →
      (Scalar.Scalar_shape E v shape = Except.ok n2 ∨
        (shape = lazy_tensors.ShapeUtil.MakeShape type [] ∧
          Scalar.Scalar_type E v type = Except.ok n2)) →
      n1.op = n2.op ∧ n1.shape = n2.shape ∧ n1.num_outputs = n2.num_outputs ∧
      E.nodeHash n1.toTsNode = E.nodeHash n2.toTsNode) ∧
    Scalar.Scalar_type E (c10.Scalar.HAS_d 0x400C000000000000) c10.ScalarType.Float =
      Except.ok
        { op := OpKind.mk "prim::Constant",
          shape := { element_type := c10.ScalarType.Float, dimensions := [] },
          num_outputs := 1,
          hash_seed := E.DataHash (bytes64 0x400C000000000000),
          value_ := c10.Scalar.HAS_d 0x400C000000000000 } := by
  have fields : ∀ (sh : lazy_tensors.Shape) (n : Scalar),
      Scalar.Scalar_shape E v sh = Except.ok n →
      n.op = OpKind.mk "prim::Constant" ∧ n.num_outputs = 1 ∧ n.shape = sh ∧
      n.value_ = v ∧ ScalarHash E v = Except.ok n.hash_seed := by
    intro sh n h
    obtain ⟨seed, hs, rfl⟩ := Scalar_shape_eq_ok h
    exact ⟨rfl, rfl, rfl, rfl, hs⟩
  have built : ∀ (sh : lazy_tensors.Shape),
      (∃ n, Scalar.Scalar_shape E v sh = Except.ok n) ↔ ∃ seed, ScalarHash E v = Except.ok seed := by
    intro sh
    constructor
    · rintro ⟨n, h⟩
      obtain ⟨seed, hs, _⟩ := Scalar_shape_eq_ok h
      exact ⟨seed, hs⟩
    · rintro ⟨seed, hs⟩
      exact ⟨_, by rw [Scalar.Scalar_shape, hs]; rfl⟩
  refine ⟨fields shape, fun n h => fields _ n h, built shape, built _, ?_, ?_, rfl⟩
  · intro hv
    have hs := ScalarHash_ok_of_not_complex E v hv
    exact ⟨(built shape).2 hs, (built _).2 hs⟩
  · intro n1 n2 h1 h2
    have h2 : Scalar.Scalar_shape E v shape = Except.ok n2 := by
      rcases h2 with h2 | ⟨hsh, h2⟩
      · exact h2
      · rw [hsh, ← Scalar_type_eq_shape]
        exact h2
    have : n1 = n2 := Except.ok.inj (h1.symm.trans h2)
    subst this
    exact ⟨rfl, rfl, rfl, rfl⟩

/-- C8: the two constructors agree: `Scalar(v, t)` builds the same node as
`Scalar(v, S)` for the rank-0 shape `S = MakeShape(t, {})`, whose element type
is `t` and whose dimension list is empty; the node has kind `prim::Constant`,
one output, hash seed `ScalarHash(v)` and stored value `v`. -/
theorem Scalar_constructors_agree (E : Externals) (v : c10.Scalar) (t : c10.ScalarType) :
    Scalar.Scalar_type E v t = Scalar.Scalar_shape E v (lazy_tensors.ShapeUtil.MakeShape t []) ∧
    (lazy_tensors.ShapeUtil.MakeShape t []).element_type = t ∧
    (lazy_tensors.ShapeUtil.MakeShape t []).dimensions = [] ∧
    (lazy_tensors.ShapeUtil.MakeShape t []).rank = 0 ∧
    (∀ n, Scalar.Scalar_type E v t = Except.ok n ↔
      (∃ seed, ScalarHash E v = Except.ok seed ∧
        n = { op := OpKind.mk "prim::Constant",
              shape := { element_type := t, dimensions := [] },
              num_outputs := 1, hash_seed := seed, value_ := v })) := by
  refine ⟨rfl, rfl, rfl, rfl, ?_⟩
  intro n
  constructor
  · intro h
    exact Scalar_shape_eq_ok h
  · rintro ⟨seed, hs, rfl⟩
    rw [Scalar.Scalar_type, hs]
    rfl

/-- C9: every scalar that is not floating point is hashed through its 64-bit
integer conversion; so the boolean `true` and the integral `1` (likewise
`false` and `0`) get the same hash, and the `Scalar` nodes built from a boolean
and from the matching integer with the same shape are both built and carry
equal kind, shape, output count, hash seed and content hash (they differ only
in the stored value). -/
theorem ScalarHash_bool_as_integer (E : Externals) (s : c10.Scalar)
    (shape : lazy_tensors.Shape) (b : Bool) :
    (s.isFloatingPoint = false →
      ScalarHash E s = (s.toLong E.cast).map (Hash_long E.DataHash)) ∧
    ScalarHash E (c10.Scalar.HAS_b true) = ScalarHash E (c10.Scalar.HAS_i 1) ∧
    ScalarHash E (c10.Scalar.HAS_b false) = ScalarHash E (c10.Scalar.HAS_i 0) ∧
    ScalarHash E (c10.Scalar.HAS_b true) = Except.ok (E.DataHash [1, 0, 0, 0, 0, 0, 0, 0]) ∧
    ScalarHash E (c10.Scalar.HAS_b false) = Except.ok (E.DataHash [0, 0, 0, 0, 0, 0, 0, 0]) ∧
    (∃ n m, Scalar.Scalar_shape E (c10.Scalar.HAS_b b) shape = Except.ok n ∧
      Scalar.Scalar_shape E (c10.Scalar.HAS_i (if b then 1 else 0)) shape = Except.ok m ∧
      n.op = m.op ∧ n.shape = m.shape ∧ n.num_outputs = m.num_outputs ∧
      n.hash_seed = m.hash_seed ∧ E.nodeHash n.toTsNode = E.nodeHash m.toTsNode ∧
      n.value_ ≠ m.value_) := by
  refine ⟨?_, rfl, rfl, ?_, ?_, ?_⟩
  · intro h
    simp [ScalarHash, h]
  · rw [ScalarHash_HAS_b]
    have : bytes64 (bits_of_long (c10.Scalar.long_of_bool true)) = [1, 0, 0, 0, 0, 0, 0, 0] := by
      decide
    rw [this]
  · rw [ScalarHash_HAS_b]
    have : bytes64 (bits_of_long (c10.Scalar.long_of_bool false)) = [0, 0, 0, 0, 0, 0, 0, 0] := by
      decide
    rw [this]
  · refine ⟨{ op := OpKind.mk prim_Constant, shape := shape, num_outputs := 1,
              hash_seed := E.DataHash (bytes64 (bits_of_long (c10.Scalar.long_of_bool b))),
              value_ := c10.Scalar.HAS_b b },
            { op := OpKind.mk prim_Constant, shape := shape, num_outputs := 1,
              hash_seed := E.DataHash (bytes64 (bits_of_long (c10.Scalar.long_of_bool b))),
              value_ := c10.Scalar.HAS_i (if b then 1 else 0) },
            rfl, rfl, rfl, rfl, rfl, rfl, rfl, ?_⟩
    intro h
    cases h

/-- C10: `Scalar::ToString` is the text of `TsNode::ToString`, then the literal
", value=", then the printed stored value: the base text is a proper prefix of
the result (a prefix, and strictly shorter) and the printed value is its final
part. -/
theorem Scalar_ToString_format (E : Externals) (n : Scalar) :
    Scalar.ToString E n =
      E.TsNode_ToString n.toTsNode ++ ", value=" ++ E.printScalar n.value_ ∧
    (Scalar.ToString E n).data =
      (E.TsNode_ToString n.toTsNode).data ++ ", value=".data ++ (E.printScalar n.value_).data ∧
    (E.TsNode_ToString n.toTsNode).data <+: (Scalar.ToString E n).data ∧
    (E.TsNode_ToString n.toTsNode).length < (Scalar.ToString E n).length ∧
    E.TsNode_ToString n.toTsNode ≠ Scalar.ToString E n ∧
    (E.printScalar n.value_).data <:+ (Scalar.ToString E n).data := by
  have hdata : (Scalar.ToString E n).data =
      (E.TsNode_ToString n.toTsNode).data ++ ", value=".data ++ (E.printScalar n.value_).data := by
    simp [Scalar.ToString, String.data_append]
  have hlen : (E.TsNode_ToString n.toTsNode).length < (Scalar.ToString E n).length := by
    show (E.TsNode_ToString n.toTsNode).data.length < (Scalar.ToString E n).data.length
    rw [hdata, List.length_append, List.length_append]
    have h8 : ", value=".data.length = 8 := by decide
    omega
  refine ⟨rfl, hdata, ?_, hlen, ?_, ?_⟩
  · rw [hdata, List.append_assoc]
    exact List.prefix_append _ _
  · intro h
    rw [← h] at hlen
    exact Nat.lt_irrefl _ hlen
  · rw [hdata]
    exact List.suffix_append _ _

end ops
end ir
end torch_lazy_tensors
